import Mathlib

/-! Shallow embedding of the core of `Code-brain-simulation.py`: the
`BrainInterface` stress generator and the `QuantumTestBench`
density-matrix simulator, together with proofs of the specified
properties.  Ambient randomness (`random.uniform`, `random.random`)
is passed to the embedded functions as explicit arguments.
-/

open scoped ComplexOrder

noncomputable section

namespace BrainSim

/-- Complex 2×2 matrices: the state space of one-qubit density matrices. -/
abbrev Mat2 := Matrix (Fin 2) (Fin 2) ℂ

/-- The target state `(basis(2,0) + basis(2,1)).unit()`, i.e. `|+>`:
the equal superposition `(1,1)/sqrt 2`. -/
def psi_target : Fin 2 → ℂ := ![((Real.sqrt 2)⁻¹ : ℝ), ((Real.sqrt 2)⁻¹ : ℝ)]

/-- The projector `P_target = psi_target * psi_target.dag()` onto `|+>`. -/
def P_target : Mat2 := Matrix.vecMulVec psi_target (star psi_target)

/-- Pauli X, `sigmax()` in the source, the alignment measurement operator. -/
def sigmax : Mat2 := !![0, 1; 1, 0]

/-- Pauli Z, `sigmaz()` in the source, the phase-flip noise operator. -/
def sigmaz : Mat2 := !![1, 0; 0, -1]

/-- qutip `expect(oper, rho) = Tr(oper * rho)`; for the Hermitian operators
used here qutip returns the real part. -/
def expect (A ρ : Mat2) : ℝ := ((A * ρ).trace).re

/-- Real symmetric 2×2 states with both diagonal entries `1/2`; every state
reachable from the initial state has this shape (proof-side helper). -/
def sym (x : ℝ) : Mat2 := !![((1/2 : ℝ) : ℂ), (x : ℂ); (x : ℂ), ((1/2 : ℝ) : ℂ)]

/-- Mutable state of `BrainInterface`. -/
structure BrainInterface where
  time_step : ℝ
  stress_phase : ℝ

/-- Constructor `BrainInterface.__init__`. -/
def initBrain : BrainInterface := ⟨0.0, 0.0⟩

/-- The body of `get_stress_level` before the final `np.clip`: returns the
updated state and the unclamped `total_stress`.  The ambient randomness is
explicit: `noise` is the draw `random.uniform(-0.1, 0.1)` and `trigger` is
the event `random.random() < 0.02`. -/
def stress_components (b : BrainInterface) (noise : ℝ) (trigger : Bool) :
    BrainInterface × ℝ :=
  let time_step := b.time_step + 0.05
  let base_wave := Real.sin time_step * 0.3 + Real.cos (time_step * 0.5) * 0.2
  let phase_triggered := if trigger then 1.0 else b.stress_phase
  let phase_new := if phase_triggered > 0 then phase_triggered - 0.02 else phase_triggered
  let total_stress := 0.3 + base_wave * 0.1 + phase_new + noise
  (⟨time_step, phase_new⟩, total_stress)

/-- Operation `BrainInterface.get_stress_level`: the components above followed by
`np.clip(total_stress, 0.0, 1.0)`. -/
def get_stress_level (b : BrainInterface) (noise : ℝ) (trigger : Bool) :
    BrainInterface × ℝ :=
  ((stress_components b noise trigger).1,
    max 0.0 (min (stress_components b noise trigger).2 1.0))

/-- Mutable state of `QuantumTestBench`. -/
structure QuantumTestBench where
  rho_control : Mat2
  rho_algo : Mat2
  total_corrections : ℕ

/-- Constructor `QuantumTestBench.__init__`: both density matrices start as the pure
target projector and the correction counter at zero. -/
def initBench : QuantumTestBench := ⟨P_target, P_target, 0⟩

/-- The five values returned by `evolve`. -/
structure EvolveResult where
  fid_a : ℝ
  fid_b : ℝ
  corrected : Bool
  align_a : ℝ
  align_b : ℝ

/-- Noise strength `stress_level * 0.15`. -/
def noiseStrength (stress_level : ℝ) : ℝ := stress_level * 0.15

/-- One application of the dephasing channel
`rho' = (1 - s) * rho + s * Z * rho * Z.dag()`. -/
def dephase (s : ℝ) (ρ : Mat2) : Mat2 :=
  (1 - s) • ρ + s • (sigmaz * ρ * sigmaz.conjTranspose)

/-- Operation `QuantumTestBench.evolve`. -/
def evolve (q : QuantumTestBench) (stress_level : ℝ) :
    QuantumTestBench × EvolveResult :=
  let s := noiseStrength stress_level
  let rho_control := dephase s q.rho_control
  let rho_algo := dephase s q.rho_algo
  let fid_b_pre := expect P_target rho_algo
  let correction_triggered := fid_b_pre < 0.90
  let rho_algo2 := if correction_triggered then
      (0.8 : ℝ) • rho_algo + (0.2 : ℝ) • P_target else rho_algo
  let count := if correction_triggered then q.total_corrections + 1
      else q.total_corrections
  (⟨rho_control, rho_algo2, count⟩,
    ⟨expect P_target rho_control, expect P_target rho_algo2,
      if correction_triggered then true else false,
      expect sigmax rho_control, expect sigmax rho_algo2⟩)

/-- Iterate `evolve` over a list of stress levels, returning the final
bench state and the per-call results. -/
def runBench (q : QuantumTestBench) :
    List ℝ → QuantumTestBench × List EvolveResult
  | [] => (q, [])
  | s :: rest =>
    ((runBench (evolve q s).1 rest).1,
      (evolve q s).2 :: (runBench (evolve q s).1 rest).2)

/-- Iterate `get_stress_level` over a list of random draws. -/
def runBrain (b : BrainInterface) :
    List (ℝ × Bool) → BrainInterface × List ℝ
  | [] => (b, [])
  | d :: rest =>
    ((runBrain (get_stress_level b d.1 d.2).1 rest).1,
      (get_stress_level b d.1 d.2).2 ::
        (runBrain (get_stress_level b d.1 d.2).1 rest).2)

/-- The main loop: each tick draws a stress level from the brain and feeds
it to the bench; collects the stress value and the evolve result. -/
def runSystem :
    BrainInterface → QuantumTestBench → List (ℝ × Bool) → List (ℝ × EvolveResult)
  | _, _, [] => []
  | b, q, d :: rest =>
    ((get_stress_level b d.1 d.2).2,
      (evolve q (get_stress_level b d.1 d.2).2).2) ::
      runSystem (get_stress_level b d.1 d.2).1
        (evolve q (get_stress_level b d.1 d.2).2).1 rest

/-- Fidelity of the control state to the target. -/
def fidControl (q : QuantumTestBench) : ℝ := expect P_target q.rho_control

/-- The invariant interval for `stress_phase` (claim C9). -/
def phaseInv (b : BrainInterface) : Prop :=
  -0.02 < b.stress_phase ∧ b.stress_phase ≤ 1.0

/-! Basic algebra of the embedded matrices -/

lemma sqrt_two_inv_mul : ((Real.sqrt 2)⁻¹ : ℝ) * (Real.sqrt 2)⁻¹ = 1/2 := by
  rw [← mul_inv, Real.mul_self_sqrt (by norm_num : (0:ℝ) ≤ 2)]
  norm_num

lemma ofReal_sqrt_two_inv_mul :
    ((Real.sqrt 2 : ℝ) : ℂ)⁻¹ * ((Real.sqrt 2 : ℝ) : ℂ)⁻¹ = 2⁻¹ := by
  rw [← mul_inv, ← Complex.ofReal_mul, Real.mul_self_sqrt (by norm_num : (0:ℝ) ≤ 2)]
  norm_num

/-- The target projector written out entrywise. -/
lemma P_target_eq : P_target = sym (1/2) := by
  unfold P_target sym psi_target
  ext i j
  fin_cases i <;> fin_cases j <;>
    simp [Matrix.vecMulVec_apply, ofReal_sqrt_two_inv_mul]

lemma sigmaz_conjTranspose : sigmaz.conjTranspose = sigmaz := by
  unfold sigmaz
  ext i j
  fin_cases i <;> fin_cases j <;> simp [Matrix.conjTranspose_apply]

lemma sigmaz_mul_self : sigmaz * sigmaz = 1 := by
  unfold sigmaz
  ext i j
  fin_cases i <;> fin_cases j <;>
    simp [Matrix.mul_apply, Fin.sum_univ_two, Matrix.one_apply]

/-- One dephasing application on a `sym` state scales the off-diagonal
entries by `1 - 2s`. -/
lemma dephase_sym (s x : ℝ) : dephase s (sym x) = sym ((1 - 2*s) * x) := by
  unfold dephase
  rw [sigmaz_conjTranspose]
  unfold sigmaz sym
  rw [Matrix.mul_fin_two, Matrix.mul_fin_two]
  ext i j
  fin_cases i <;> fin_cases j <;>
    simp [Complex.real_smul] <;> ring

/-- Fidelity of a `sym` state to the target. -/
lemma expect_P_sym (x : ℝ) : expect P_target (sym x) = 1/2 + x := by
  rw [P_target_eq]
  unfold expect sym
  simp [Matrix.trace_fin_two, Matrix.mul_apply, Fin.sum_univ_two,
    ← Complex.ofReal_mul, ← Complex.ofReal_add]
  ring

/-- X-alignment of a `sym` state. -/
lemma expect_X_sym (x : ℝ) : expect sigmax (sym x) = 2 * x := by
  unfold expect sym sigmax
  simp [Matrix.trace_fin_two, Matrix.mul_apply, Fin.sum_univ_two,
    ← Complex.ofReal_mul, ← Complex.ofReal_add]
  ring

/-- The corrective replacement on a `sym` state. -/
lemma corr_sym (x : ℝ) :
    (0.8 : ℝ) • sym x + (0.2 : ℝ) • P_target = sym (0.8 * x + 0.1) := by
  rw [P_target_eq]
  unfold sym
  ext i j
  fin_cases i <;> fin_cases j <;>
    simp [Complex.real_smul] <;> norm_num

/-! Unfolding lemmas for `evolve` -/

lemma evolve_rho_control (q : QuantumTestBench) (s : ℝ) :
    (evolve q s).1.rho_control = dephase (noiseStrength s) q.rho_control := rfl

lemma evolve_fid_a (q : QuantumTestBench) (s : ℝ) :
    (evolve q s).2.fid_a = expect P_target (dephase (noiseStrength s) q.rho_control) := rfl

/-- Unfolded form of `evolve` when the correction fires. -/
lemma evolve_of_corr {q : QuantumTestBench} {s : ℝ}
    (h : expect P_target (dephase (noiseStrength s) q.rho_algo) < 0.90) :
    evolve q s =
      (⟨dephase (noiseStrength s) q.rho_control,
        (0.8 : ℝ) • dephase (noiseStrength s) q.rho_algo + (0.2 : ℝ) • P_target,
        q.total_corrections + 1⟩,
       ⟨expect P_target (dephase (noiseStrength s) q.rho_control),
        expect P_target
          ((0.8 : ℝ) • dephase (noiseStrength s) q.rho_algo + (0.2 : ℝ) • P_target),
        true,
        expect sigmax (dephase (noiseStrength s) q.rho_control),
        expect sigmax
          ((0.8 : ℝ) • dephase (noiseStrength s) q.rho_algo + (0.2 : ℝ) • P_target)⟩) := by
  simp only [evolve]
  rw [if_pos h, if_pos h, if_pos h]

/-- Unfolded form of `evolve` when no correction fires. -/
lemma evolve_of_nocorr {q : QuantumTestBench} {s : ℝ}
    (h : ¬ expect P_target (dephase (noiseStrength s) q.rho_algo) < 0.90) :
    evolve q s =
      (⟨dephase (noiseStrength s) q.rho_control,
        dephase (noiseStrength s) q.rho_algo,
        q.total_corrections⟩,
       ⟨expect P_target (dephase (noiseStrength s) q.rho_control),
        expect P_target (dephase (noiseStrength s) q.rho_algo),
        false,
        expect sigmax (dephase (noiseStrength s) q.rho_control),
        expect sigmax (dephase (noiseStrength s) q.rho_algo)⟩) := by
  simp only [evolve]
  rw [if_neg h, if_neg h, if_neg h]

/-- Evaluation of `evolve` on `sym` states, correction branch. -/
lemma evolve_sym_corr {a b stress : ℝ} {n : ℕ}
    (h : 1/2 + (1 - 2 * noiseStrength stress) * b < 0.90) :
    evolve ⟨sym a, sym b, n⟩ stress =
      (⟨sym ((1 - 2 * noiseStrength stress) * a),
        sym (0.8 * ((1 - 2 * noiseStrength stress) * b) + 0.1), n + 1⟩,
       ⟨1/2 + (1 - 2 * noiseStrength stress) * a,
        1/2 + (0.8 * ((1 - 2 * noiseStrength stress) * b) + 0.1),
        true,
        2 * ((1 - 2 * noiseStrength stress) * a),
        2 * (0.8 * ((1 - 2 * noiseStrength stress) * b) + 0.1)⟩) := by
  have hc : expect P_target
      (dephase (noiseStrength stress)
        ((⟨sym a, sym b, n⟩ : QuantumTestBench).rho_algo)) < 0.90 := by
    simpa [dephase_sym, expect_P_sym] using h
  rw [evolve_of_corr hc]
  simp [dephase_sym, expect_P_sym, expect_X_sym, corr_sym]

/-- Evaluation of `evolve` on `sym` states, no-correction branch. -/
lemma evolve_sym_nocorr {a b stress : ℝ} {n : ℕ}
    (h : ¬ 1/2 + (1 - 2 * noiseStrength stress) * b < 0.90) :
    evolve ⟨sym a, sym b, n⟩ stress =
      (⟨sym ((1 - 2 * noiseStrength stress) * a),
        sym ((1 - 2 * noiseStrength stress) * b), n⟩,
       ⟨1/2 + (1 - 2 * noiseStrength stress) * a,
        1/2 + (1 - 2 * noiseStrength stress) * b,
        false,
        2 * ((1 - 2 * noiseStrength stress) * a),
        2 * ((1 - 2 * noiseStrength stress) * b)⟩) := by
  have hc : ¬ expect P_target
      (dephase (noiseStrength stress)
        ((⟨sym a, sym b, n⟩ : QuantumTestBench).rho_algo)) < 0.90 := by
    simpa [dephase_sym, expect_P_sym] using h
  rw [evolve_of_nocorr hc]
  simp [dephase_sym, expect_P_sym, expect_X_sym]

/-- The initial bench state in `sym` form. -/
lemma initBench_eq : initBench = ⟨sym (1/2), sym (1/2), 0⟩ := by
  unfold initBench
  rw [P_target_eq]

/-! Density-matrix invariants -/

lemma P_target_factored :
    P_target =
      (!![(((Real.sqrt 2)⁻¹ : ℝ) : ℂ), (((Real.sqrt 2)⁻¹ : ℝ) : ℂ)] :
          Matrix (Fin 1) (Fin 2) ℂ).conjTranspose *
        !![(((Real.sqrt 2)⁻¹ : ℝ) : ℂ), (((Real.sqrt 2)⁻¹ : ℝ) : ℂ)] := by
  unfold P_target psi_target
  ext i j
  fin_cases i <;> fin_cases j <;>
    simp [Matrix.vecMulVec_apply, Matrix.mul_apply, Matrix.conjTranspose_apply,
      Fin.sum_univ_one]

lemma P_target_posSemidef : P_target.PosSemidef := by
  rw [P_target_factored]
  exact Matrix.posSemidef_conjTranspose_mul_self _

lemma P_target_isHermitian : P_target.IsHermitian := P_target_posSemidef.1

lemma P_target_trace : P_target.trace = 1 := by
  rw [P_target_eq]
  unfold sym
  rw [Matrix.trace_fin_two_of]
  norm_num

lemma isHermitian_real_smul {r : ℝ} {M : Mat2} (h : M.IsHermitian) :
    (r • M).IsHermitian := by
  show (r • M).conjTranspose = r • M
  rw [Matrix.conjTranspose_smul, star_trivial, h.eq]

lemma posSemidef_real_smul {r : ℝ} (hr : 0 ≤ r) {M : Mat2} (hM : M.PosSemidef) :
    (r • M).PosSemidef := by
  constructor
  · exact isHermitian_real_smul hM.1
  · intro x
    rw [Matrix.smul_mulVec_assoc, Matrix.dotProduct_smul, Complex.real_smul]
    exact mul_nonneg (Complex.zero_le_real.mpr hr) (hM.2 x)

lemma isHermitian_dephase {s : ℝ} {ρ : Mat2} (h : ρ.IsHermitian) :
    (dephase s ρ).IsHermitian :=
  (isHermitian_real_smul h).add
    (isHermitian_real_smul (Matrix.isHermitian_mul_mul_conjTranspose sigmaz h))

lemma trace_dephase {s : ℝ} {ρ : Mat2} (h : ρ.trace = 1) :
    (dephase s ρ).trace = 1 := by
  unfold dephase
  rw [Matrix.trace_add, Matrix.trace_smul, Matrix.trace_smul,
    Matrix.trace_mul_cycle, sigmaz_conjTranspose, sigmaz_mul_self, Matrix.one_mul,
    h, Complex.real_smul, Complex.real_smul]
  push_cast
  ring

lemma posSemidef_dephase {s : ℝ} (h0 : 0 ≤ s) (h1 : s ≤ 1) {ρ : Mat2}
    (hρ : ρ.PosSemidef) : (dephase s ρ).PosSemidef :=
  (posSemidef_real_smul (by linarith) hρ).add
    (posSemidef_real_smul h0 (hρ.mul_mul_conjTranspose_same sigmaz))

lemma isHermitian_corr {ρ : Mat2} (h : ρ.IsHermitian) :
    ((0.8 : ℝ) • ρ + (0.2 : ℝ) • P_target).IsHermitian :=
  (isHermitian_real_smul h).add (isHermitian_real_smul P_target_isHermitian)

lemma posSemidef_corr {ρ : Mat2} (hρ : ρ.PosSemidef) :
    ((0.8 : ℝ) • ρ + (0.2 : ℝ) • P_target).PosSemidef :=
  (posSemidef_real_smul (by norm_num) hρ).add
    (posSemidef_real_smul (by norm_num) P_target_posSemidef)

lemma trace_corr {ρ : Mat2} (h : ρ.trace = 1) :
    ((0.8 : ℝ) • ρ + (0.2 : ℝ) • P_target).trace = 1 := by
  rw [Matrix.trace_add, Matrix.trace_smul, Matrix.trace_smul, h, P_target_trace,
    Complex.real_smul, Complex.real_smul]
  norm_num

/-- Linearity of `expect` in the state, for real convex combinations. -/
lemma expect_smul_add (A : Mat2) (r t : ℝ) (M N : Mat2) :
    expect A (r • M + t • N) = r * expect A M + t * expect A N := by
  unfold expect
  rw [Matrix.mul_add, Matrix.mul_smul, Matrix.mul_smul, Matrix.trace_add,
    Matrix.trace_smul, Matrix.trace_smul, Complex.add_re, Complex.real_smul,
    Complex.real_smul, Complex.re_ofReal_mul, Complex.re_ofReal_mul]

/-- Fidelity of the target to itself. -/
lemma expect_P_P : expect P_target P_target = 1 := by
  nth_rewrite 2 [P_target_eq]
  rw [expect_P_sym]
  norm_num

/-! Concrete evaluations -/

/-- One `evolve(1.0)` call from the initial state: the pre-correction
fidelity is `0.85 < 0.90`, so the correction fires. -/
lemma evolve_init_one :
    evolve initBench 1 =
      (⟨sym 0.35, sym 0.38, 1⟩, ⟨0.85, 0.88, true, 0.7, 0.76⟩) := by
  rw [initBench_eq, evolve_sym_corr (by norm_num [noiseStrength])]
  norm_num [noiseStrength]

/-- One `evolve(0.0)` call from the initial state changes nothing. -/
lemma evolve_init_zero :
    evolve initBench 0 = (initBench, ⟨1, 1, false, 1, 1⟩) := by
  rw [initBench_eq, evolve_sym_nocorr (by norm_num [noiseStrength])]
  norm_num [noiseStrength]

/-- One `evolve(2.0)` call from the initial state (out-of-range input). -/
lemma evolve_init_two :
    evolve initBench 2 =
      (⟨sym 0.2, sym 0.26, 1⟩, ⟨0.7, 0.76, true, 0.4, 0.52⟩) := by
  rw [initBench_eq, evolve_sym_corr (by norm_num [noiseStrength])]
  norm_num [noiseStrength]

/-- One `evolve(10.0)` call from the initial state (far out of range). -/
lemma evolve_init_ten :
    evolve initBench 10 =
      (⟨sym (-1), sym (-0.7), 1⟩, ⟨-(1/2), -0.2, true, -2, -1.4⟩) := by
  rw [initBench_eq, evolve_sym_corr (by norm_num [noiseStrength])]
  norm_num [noiseStrength]

/-! Claim theorems -/

/-- Claim C1, counterexample: after a single `step(1.0)` from the initial
state the returned `fidelity_control` is not `1 - 2*0.15*(1-0.15)` (it is
`0.85`), and a correction does fire, so the claimed conjunction is false. -/
theorem C1_counterexample :
    ¬ ((evolve initBench 1).2.fid_a = 1 - 2 * 0.15 * (1 - 0.15) ∧
       (evolve initBench 1).2.corrected = false) := by
  rw [evolve_init_one]
  norm_num

/-- Claim C1 as amended: a single `step(1.0)` from the initial state yields
`noise_strength = 0.15`, a `fidelity_control` of `1 - 0.15 = 0.85` (one
dephasing application), and — since the pre-correction protected fidelity
`0.85` is below `0.90` — a correction does fire: `corrected = true`,
`correction_count` becomes `1`, and the returned `fidelity_protected` is
`0.8*0.85 + 0.2 = 0.88`. -/
theorem C1_amended :
    noiseStrength 1 = 0.15 ∧
    (evolve initBench 1).2.fid_a = 1 - 0.15 ∧
    (evolve initBench 1).2.corrected = true ∧
    (evolve initBench 1).1.total_corrections = 1 ∧
    (evolve initBench 1).2.fid_b = 0.8 * (1 - 0.15) + 0.2 := by
  rw [evolve_init_one]
  norm_num [noiseStrength]

/-- Claim C2: the code does not clamp `stress_level`: `evolve` computes
`noise_strength = stress_level * 0.15` directly, so `stress_level = 2.0`
yields `noise_strength = 0.3 > 0.15`, and `stress_level = 10.0` drives the
control fidelity to `-0.5`, i.e. out-of-range input propagates into the
matrix arithmetic. -/
theorem C2_no_clamping :
    noiseStrength 2 = 0.3 ∧ ¬ noiseStrength 2 ≤ 0.15 ∧
    (evolve initBench 2).2.fid_a = 0.7 ∧
    (evolve initBench 10).2.fid_a = -(1/2) := by
  rw [evolve_init_two, evolve_init_ten]
  norm_num [noiseStrength]

/-- Claim C3, counterexample: a stored non-positive `stress_phase` is added
to the raw total as-is, not treated as `0`: with `stress_phase = -1/100`
the raw value differs from the raw value at `stress_phase = 0`. -/
theorem C3_counterexample :
    (stress_components ⟨0, -(1/100)⟩ 0 false).2 ≠
      (stress_components ⟨0, 0⟩ 0 false).2 := by
  unfold stress_components
  dsimp only
  rw [if_neg (by simp : ¬ (false = true)), if_neg (by simp : ¬ (false = true)),
    if_neg (by norm_num : ¬ ((-(1/100) : ℝ) > 0)), if_neg (by norm_num : ¬ ((0 : ℝ) > 0))]
  intro h
  linarith

/-- Claim C3 as amended: when the stored `stress_phase` is non-positive (and
no trigger fires), it is not decremented, it is stored unchanged, and it is
added to the raw value `0.3 + 0.1*bias + stress_phase + jitter` as-is —
contributing its own (possibly negative) value rather than `0`. -/
theorem C3_amended (b : BrainInterface) (noise : ℝ) (h : b.stress_phase ≤ 0) :
    (stress_components b noise false).2 =
      0.3 + (Real.sin (b.time_step + 0.05) * 0.3 +
        Real.cos ((b.time_step + 0.05) * 0.5) * 0.2) * 0.1 + b.stress_phase + noise ∧
    (stress_components b noise false).1.stress_phase = b.stress_phase := by
  unfold stress_components
  dsimp only
  rw [if_neg (by simp : ¬ (false = true)), if_neg (not_lt.mpr h)]
  exact ⟨rfl, rfl⟩

/-- Witness for C3 as amended, at the concrete state `stress_phase = -1/100`. -/
theorem C3_amended_witness :
    (stress_components ⟨0, -(1/100)⟩ 0 false).2 =
      0.3 + (Real.sin ((0 : ℝ) + 0.05) * 0.3 +
        Real.cos (((0 : ℝ) + 0.05) * 0.5) * 0.2) * 0.1 + -(1/100) + 0 ∧
    (stress_components ⟨0, -(1/100)⟩ 0 false).1.stress_phase = -(1/100) :=
  C3_amended ⟨0, -(1/100)⟩ 0 (by norm_num)

/-- Claim C6: the dephasing update at zero noise is the identity, and
repeated `step(0.0)` calls from the initial state leave the whole bench
(both density matrices and the counter) unchanged, with no correction
firing on any call. -/
theorem C6_zero_stress_identity :
    (∀ ρ : Mat2, dephase 0 ρ = ρ) ∧
    ∀ n : ℕ,
      (runBench initBench (List.replicate n 0)).1 = initBench ∧
      ((runBench initBench (List.replicate n 0)).2.all fun r => !r.corrected) = true := by
  constructor
  · intro ρ
    unfold dephase
    simp
  · intro n
    induction n with
    | zero => simp [runBench]
    | succ k ih =>
      rw [List.replicate_succ]
      simp only [runBench]
      rw [show (evolve initBench 0).1 = initBench from congrArg Prod.fst evolve_init_zero,
        show (evolve initBench 0).2 = ⟨1, 1, false, 1, 1⟩ from
          congrArg Prod.snd evolve_init_zero]
      refine ⟨ih.1, ?_⟩
      simp only [List.all_cons, ih.2]
      simp

/-- Per-call correction accounting: the `corrected` flag is true exactly
when the pre-correction protected fidelity is below `0.90`, and the counter
is incremented by exactly one on such a call and unchanged otherwise. -/
lemma evolve_count_if (q : QuantumTestBench) (stress : ℝ) :
    ((evolve q stress).2.corrected = true ↔
      expect P_target (dephase (noiseStrength stress) q.rho_algo) < 0.90) ∧
    (evolve q stress).1.total_corrections =
      (if expect P_target (dephase (noiseStrength stress) q.rho_algo) < 0.90
        then q.total_corrections + 1 else q.total_corrections) := by
  by_cases h : expect P_target (dephase (noiseStrength stress) q.rho_algo) < 0.90
  · rw [evolve_of_corr h, if_pos h]
    exact ⟨by simp [h], rfl⟩
  · rw [evolve_of_nocorr h, if_neg h]
    exact ⟨by simp [h], rfl⟩

/-- Run-level correction accounting: the final counter is the initial one
plus the number of calls whose `corrected` flag was set. -/
lemma runBench_count (L : List ℝ) :
    ∀ q : QuantumTestBench,
      (runBench q L).1.total_corrections =
        q.total_corrections +
          ((runBench q L).2.filter (fun r => r.corrected)).length := by
  induction L with
  | nil => intro q; simp [runBench]
  | cons s rest ih =>
    intro q
    simp only [runBench]
    by_cases h : expect P_target (dephase (noiseStrength s) q.rho_algo) < 0.90
    · have hc : (evolve q s).2.corrected = true := (evolve_count_if q s).1.mpr h
      have hn : (evolve q s).1.total_corrections = q.total_corrections + 1 := by
        rw [(evolve_count_if q s).2, if_pos h]
      rw [List.filter_cons_of_pos (by simp [hc]), List.length_cons, ih, hn]
      omega
    · have hc : (evolve q s).2.corrected = false := by
        rcases Bool.eq_false_or_eq_true (evolve q s).2.corrected with ht | hf
        · exact absurd ((evolve_count_if q s).1.mp ht) h
        · exact hf
      have hn : (evolve q s).1.total_corrections = q.total_corrections := by
        rw [(evolve_count_if q s).2, if_neg h]
      rw [List.filter_cons_of_neg (by simp [hc]), ih, hn]

/-- Claim C4: after any sequence of calls, `correction_count` equals its
starting value plus the number of calls on which a correction fired; it
never decreases; and on each single call the `corrected` flag is true
exactly when the pre-correction protected fidelity is below `0.90`, with
the counter incremented by exactly one on such a call and unchanged
otherwise. -/
theorem C4_correction_count (q : QuantumTestBench) (L : List ℝ) :
    ((runBench q L).1.total_corrections =
      q.total_corrections +
        ((runBench q L).2.filter (fun r => r.corrected)).length) ∧
    q.total_corrections ≤ (runBench q L).1.total_corrections ∧
    ∀ stress : ℝ,
      ((evolve q stress).2.corrected = true ↔
        expect P_target (dephase (noiseStrength stress) q.rho_algo) < 0.90) ∧
      (evolve q stress).1.total_corrections =
        (if expect P_target (dephase (noiseStrength stress) q.rho_algo) < 0.90
          then q.total_corrections + 1 else q.total_corrections) := by
  refine ⟨runBench_count L q, ?_, fun stress => evolve_count_if q stress⟩
  rw [runBench_count L q]
  exact Nat.le_add_right _ _

/-- Claim C5: for stress in `[0,1]`, one `evolve` call maps density
matrices to density matrices: Hermiticity, unit trace, and positive
semi-definiteness of both the control and the protected state are
preserved exactly, through both the dephasing update and (when it fires)
the corrective replacement. -/
theorem C5_density_invariants (q : QuantumTestBench) (stress : ℝ)
    (h0 : 0 ≤ stress) (h1 : stress ≤ 1)
    (hc : q.rho_control.PosSemidef) (hct : q.rho_control.trace = 1)
    (ha : q.rho_algo.PosSemidef) (hat : q.rho_algo.trace = 1) :
    ((evolve q stress).1.rho_control.IsHermitian ∧
      (evolve q stress).1.rho_control.trace = 1 ∧
      (evolve q stress).1.rho_control.PosSemidef) ∧
    ((evolve q stress).1.rho_algo.IsHermitian ∧
      (evolve q stress).1.rho_algo.trace = 1 ∧
      (evolve q stress).1.rho_algo.PosSemidef) := by
  have hs0 : 0 ≤ noiseStrength stress := by unfold noiseStrength; nlinarith
  have hs1 : noiseStrength stress ≤ 1 := by unfold noiseStrength; nlinarith
  by_cases h : expect P_target (dephase (noiseStrength stress) q.rho_algo) < 0.90
  · rw [evolve_of_corr h]
    exact ⟨⟨isHermitian_dephase hc.1, trace_dephase hct,
        posSemidef_dephase hs0 hs1 hc⟩,
      isHermitian_corr (isHermitian_dephase ha.1),
      trace_corr (trace_dephase hat),
      posSemidef_corr (posSemidef_dephase hs0 hs1 ha)⟩
  · rw [evolve_of_nocorr h]
    exact ⟨⟨isHermitian_dephase hc.1, trace_dephase hct,
        posSemidef_dephase hs0 hs1 hc⟩,
      isHermitian_dephase ha.1, trace_dephase hat,
      posSemidef_dephase hs0 hs1 ha⟩

/-- Witness for C5 at the initial state and `stress = 1/2`. -/
theorem C5_density_invariants_witness :
    ((evolve initBench (1/2)).1.rho_control.IsHermitian ∧
      (evolve initBench (1/2)).1.rho_control.trace = 1 ∧
      (evolve initBench (1/2)).1.rho_control.PosSemidef) ∧
    ((evolve initBench (1/2)).1.rho_algo.IsHermitian ∧
      (evolve initBench (1/2)).1.rho_algo.trace = 1 ∧
      (evolve initBench (1/2)).1.rho_algo.PosSemidef) :=
  C5_density_invariants initBench (1/2) (by norm_num) (by norm_num)
    P_target_posSemidef P_target_trace P_target_posSemidef P_target_trace

/-- Claim C7: whenever the pre-correction protected fidelity `f` is below
`0.90`, exactly one correction fires (`corrected = true`, counter `+1`) and
the returned protected fidelity equals `0.8*f + 0.2`, which exceeds `f`
whenever `f < 1`; when `f ≥ 0.90` the protected state is left as dephased,
with no correction and no counter change. -/
theorem C7_correction_step (q : QuantumTestBench) (stress : ℝ) :
    (expect P_target (dephase (noiseStrength stress) q.rho_algo) < 0.90 →
      (evolve q stress).2.corrected = true ∧
      (evolve q stress).1.total_corrections = q.total_corrections + 1 ∧
      (evolve q stress).2.fid_b =
        0.8 * expect P_target (dephase (noiseStrength stress) q.rho_algo) + 0.2 ∧
      (expect P_target (dephase (noiseStrength stress) q.rho_algo) < 1 →
        expect P_target (dephase (noiseStrength stress) q.rho_algo) <
          (evolve q stress).2.fid_b)) ∧
    (0.90 ≤ expect P_target (dephase (noiseStrength stress) q.rho_algo) →
      (evolve q stress).2.corrected = false ∧
      (evolve q stress).1.rho_algo = dephase (noiseStrength stress) q.rho_algo ∧
      (evolve q stress).1.total_corrections = q.total_corrections) := by
  constructor
  · intro h
    rw [evolve_of_corr h]
    have hb : expect P_target
        ((0.8 : ℝ) • dephase (noiseStrength stress) q.rho_algo +
          (0.2 : ℝ) • P_target) =
        0.8 * expect P_target (dephase (noiseStrength stress) q.rho_algo) + 0.2 := by
      rw [expect_smul_add, expect_P_P]
      ring
    refine ⟨rfl, rfl, hb, fun h1 => ?_⟩
    rw [hb]
    linarith
  · intro h
    rw [evolve_of_nocorr (not_lt.mpr h)]
    exact ⟨rfl, rfl, rfl⟩

/-- Witness for C7 at a concrete bench whose protected state has fidelity
`0.7 < 0.90` (zero stress keeps it there), and, for the other branch, at
the initial state where the fidelity stays `1 ≥ 0.90`. -/
theorem C7_correction_step_witness :
    ((evolve ⟨sym (1/2), sym (1/5), 0⟩ 0).2.corrected = true ∧
      (evolve ⟨sym (1/2), sym (1/5), 0⟩ 0).1.total_corrections = 0 + 1 ∧
      (evolve ⟨sym (1/2), sym (1/5), 0⟩ 0).2.fid_b =
        0.8 * expect P_target (dephase (noiseStrength 0)
          ((⟨sym (1/2), sym (1/5), 0⟩ : QuantumTestBench).rho_algo)) + 0.2 ∧
      (expect P_target (dephase (noiseStrength 0)
          ((⟨sym (1/2), sym (1/5), 0⟩ : QuantumTestBench).rho_algo)) < 1 →
        expect P_target (dephase (noiseStrength 0)
          ((⟨sym (1/2), sym (1/5), 0⟩ : QuantumTestBench).rho_algo)) <
          (evolve ⟨sym (1/2), sym (1/5), 0⟩ 0).2.fid_b)) ∧
    ((evolve initBench 0).2.corrected = false ∧
      (evolve initBench 0).1.rho_algo =
        dephase (noiseStrength 0) initBench.rho_algo ∧
      (evolve initBench 0).1.total_corrections = initBench.total_corrections) :=
  ⟨(C7_correction_step ⟨sym (1/2), sym (1/5), 0⟩ 0).1
      (by norm_num [noiseStrength, dephase_sym, expect_P_sym]),
    (C7_correction_step initBench 0).2
      (by rw [initBench_eq]
          norm_num [noiseStrength, dephase_sym, expect_P_sym])⟩

/-- Claim C8: the whole system is deterministic. `runSystem` is a pure
function of the initial component states and the sequence of random draws,
so identically seeded, identically fed runs produce identical output
sequences; and `evolve` draws no randomness at all — its output and
post-state are a function of the prior bench state and the stress argument
alone. -/
theorem C8_determinism :
    (∀ (b₁ b₂ : BrainInterface) (q₁ q₂ : QuantumTestBench)
        (d₁ d₂ : List (ℝ × Bool)),
        b₁ = b₂ → q₁ = q₂ → d₁ = d₂ →
        runSystem b₁ q₁ d₁ = runSystem b₂ q₂ d₂) ∧
    ∀ (q₁ q₂ : QuantumTestBench) (s₁ s₂ : ℝ),
        q₁ = q₂ → s₁ = s₂ → evolve q₁ s₁ = evolve q₂ s₂ := by
  constructor
  · intro b₁ b₂ q₁ q₂ d₁ d₂ hb hq hd
    rw [hb, hq, hd]
  · intro q₁ q₂ s₁ s₂ hq hs
    rw [hq, hs]

/-- Witness for C8 at concrete equal inputs. -/
theorem C8_determinism_witness :
    runSystem initBrain initBench [((0 : ℝ), false)] =
      runSystem initBrain initBench [((0 : ℝ), false)] ∧
    evolve initBench 0 = evolve initBench 0 :=
  ⟨C8_determinism.1 initBrain initBrain initBench initBench
      [((0 : ℝ), false)] [((0 : ℝ), false)] rfl rfl rfl,
    C8_determinism.2 initBench initBench 0 0 rfl rfl⟩

/-- One stress-generator call preserves the phase invariant. -/
lemma phaseInv_step {b : BrainInterface} (noise : ℝ) (trigger : Bool)
    (h : phaseInv b) : phaseInv (get_stress_level b noise trigger).1 := by
  obtain ⟨h1, h2⟩ := h
  unfold get_stress_level stress_components phaseInv
  dsimp only
  cases trigger
  · rw [if_neg (by simp : ¬ (false = true))]
    by_cases hp : b.stress_phase > 0
    · rw [if_pos hp]
      constructor <;> dsimp only <;> linarith
    · rw [if_neg hp]
      constructor <;> dsimp only <;> linarith
  · rw [if_pos (by simp : (true = true)), if_pos (by norm_num : (1.0 : ℝ) > 0)]
    constructor <;> dsimp only <;> norm_num

/-- The phase invariant holds along every run from the initial generator
state. -/
lemma phaseInv_run (ds : List (ℝ × Bool)) :
    ∀ b : BrainInterface, phaseInv b → phaseInv (runBrain b ds).1 := by
  induction ds with
  | nil => intro b h; simpa [runBrain] using h
  | cons d rest ih =>
    intro b h
    simpa [runBrain] using ih _ (phaseInv_step d.1 d.2 h)

lemma initBrain_phaseInv : phaseInv initBrain := by
  unfold phaseInv initBrain
  norm_num

/-- Claim C9: after every call `stress_phase` lies in `(-0.02, 1.0]`: the
interval holds at initialization, is preserved by every call (the phase is
decremented by `0.02` only when strictly positive, so it never reaches
`-0.02`), and a trigger resets the phase to exactly `1.0` before the
same-call decrement, storing `1.0 - 0.02`. -/
theorem C9_phase_invariant :
    (∀ ds : List (ℝ × Bool), phaseInv (runBrain initBrain ds).1) ∧
    (∀ (b : BrainInterface) (noise : ℝ) (trigger : Bool),
      phaseInv b → phaseInv (get_stress_level b noise trigger).1) ∧
    ∀ (b : BrainInterface) (noise : ℝ),
      (get_stress_level b noise true).1.stress_phase = 1.0 - 0.02 := by
  refine ⟨fun ds => phaseInv_run ds initBrain initBrain_phaseInv,
    fun b noise trigger h => phaseInv_step noise trigger h,
    fun b noise => ?_⟩
  unfold get_stress_level stress_components
  dsimp only
  rw [if_pos (by simp : (true = true)), if_pos (by norm_num : (1.0 : ℝ) > 0)]

/-- Witness for C9: the invariant-preservation part at the initial state
with concrete draws. -/
theorem C9_phase_invariant_witness :
    phaseInv (get_stress_level initBrain 0 false).1 :=
  C9_phase_invariant.2.1 initBrain 0 false (by unfold phaseInv initBrain; norm_num)

/-- Splitting a bench run at an append. -/
lemma runBench_fst_append (L L' : List ℝ) :
    ∀ q : QuantumTestBench,
      (runBench q (L ++ L')).1 = (runBench (runBench q L).1 L').1 := by
  induction L with
  | nil => intro q; simp [runBench]
  | cons s rest ih =>
    intro q
    simp only [List.cons_append, runBench]
    exact ih _

/-- Along any in-range run from the initial state, the control state stays
of `sym` shape with off-diagonal entry in `[0, 1/2]`. -/
lemma control_sym_run (L : List ℝ) :
    ∀ (q : QuantumTestBench) (x : ℝ), (∀ a ∈ L, 0 ≤ a ∧ a ≤ 1) →
      0 ≤ x → x ≤ 1/2 → q.rho_control = sym x →
      ∃ y, 0 ≤ y ∧ y ≤ 1/2 ∧ (runBench q L).1.rho_control = sym y := by
  induction L with
  | nil =>
    intro q x _ hx0 hx1 hq
    exact ⟨x, hx0, hx1, by simpa [runBench] using hq⟩
  | cons s rest ih =>
    intro q x hL hx0 hx1 hq
    have hs := hL s (by simp)
    have hns0 : 0 ≤ noiseStrength s := by
      unfold noiseStrength; nlinarith [hs.1]
    have hns1 : noiseStrength s ≤ 0.15 := by
      unfold noiseStrength; nlinarith [hs.2]
    have hnext : (evolve q s).1.rho_control =
        sym ((1 - 2 * noiseStrength s) * x) := by
      rw [evolve_rho_control, hq, dephase_sym]
    have hy0 : 0 ≤ (1 - 2 * noiseStrength s) * x :=
      mul_nonneg (by linarith) hx0
    have hy1 : (1 - 2 * noiseStrength s) * x ≤ 1/2 := by
      nlinarith [mul_nonneg hns0 hx0]
    simp only [runBench]
    exact ih _ _ (fun a ha => hL a (by simp [ha])) hy0 hy1 hnext

/-- Claim C10: starting from the initial state, under any stress sequence
in `[0,1]` the control fidelity stays in `[1/2, 1]`, and appending one more
in-range call never increases it: one dephasing application maps fidelity
`f = 1/2 + x` to `1/2 + (1 - 2s)x ≤ f`, staying at or above `1/2`. -/
theorem C10_control_monotone (L : List ℝ) (hL : ∀ a ∈ L, 0 ≤ a ∧ a ≤ 1) :
    (1/2 ≤ fidControl (runBench initBench L).1 ∧
      fidControl (runBench initBench L).1 ≤ 1) ∧
    ∀ stress : ℝ, 0 ≤ stress → stress ≤ 1 →
      fidControl (runBench initBench (L ++ [stress])).1 ≤
        fidControl (runBench initBench L).1 := by
  obtain ⟨y, hy0, hy1, hy⟩ := control_sym_run L initBench (1/2) hL
    (by norm_num) (by norm_num) (by rw [initBench_eq])
  have hfid : fidControl (runBench initBench L).1 = 1/2 + y := by
    unfold fidControl
    rw [hy, expect_P_sym]
  constructor
  · rw [hfid]
    constructor <;> linarith
  · intro stress h0 h1
    have hns0 : 0 ≤ noiseStrength stress := by
      unfold noiseStrength; nlinarith
    have happ : fidControl (runBench initBench (L ++ [stress])).1 =
        1/2 + (1 - 2 * noiseStrength stress) * y := by
      unfold fidControl
      rw [runBench_fst_append L [stress]]
      simp only [runBench]
      rw [evolve_rho_control, hy, dephase_sym, expect_P_sym]
    rw [happ, hfid]
    nlinarith [mul_nonneg hns0 hy0]

/-- Witness for C10 at the concrete run `L = [1.0]`, one further call at
stress `1.0`. -/
theorem C10_control_monotone_witness :
    (1/2 ≤ fidControl (runBench initBench [1]).1 ∧
      fidControl (runBench initBench [1]).1 ≤ 1) ∧
    fidControl (runBench initBench ([1] ++ [1])).1 ≤
      fidControl (runBench initBench [1]).1 :=
  ⟨(C10_control_monotone [1] (by norm_num)).1,
    (C10_control_monotone [1] (by norm_num)).2 1 (by norm_num) (by norm_num)⟩

end BrainSim
